import Mathlib

/-!
Verification of the block-pool allocator and owning container of `src/main.cpp`.

The C++ program defines `MyAllocator<T, BlockSize>` (a free-list pool allocator
with a bypass path for oversized requests), `MyContainer<T, Allocator>` (an
owning container that allocates one block per element), a recursive `factorial`,
and a demo `main`.  We embed the allocator as explicit state passing over an
`AllocState`: raw addresses are modelled as natural numbers handed out by a
fresh-address counter (each call to `::operator new` yields the next counter
value), and the state additionally carries two instrumentation counters that
record how many system allocations (`::operator new` calls) and how many
`expand()` invocations have happened — these counters exist only to state the
spec's observable properties and never influence control flow.
-/

namespace Lab4

/-- The mutable state of one `MyAllocator<T, BlockSize>` instance.
`freeBlocks` mirrors the `std::vector<pointer> free_blocks` member (the last
list entry is the vector's `back()`); `nextAddr` is the fresh-address supply
standing in for the system allocator; `sysAllocs` counts `::operator new`
calls and `expands` counts `expand()` invocations (instrumentation only). -/
structure AllocState where
  freeBlocks : List Nat
  nextAddr : Nat
  sysAllocs : Nat
  expands : Nat
deriving Repr, DecidableEq

/-- A freshly constructed allocator: `free_blocks` starts empty. -/
def initAlloc : AllocState :=
  { freeBlocks := [], nextAddr := 0, sysAllocs := 0, expands := 0 }

namespace MyAllocator

/-- `MyAllocator::expand` (src/main.cpp lines 75-79): a loop of `BlockSize`
iterations, each pushing one freshly system-allocated single-element block
onto `free_blocks`. -/
def expand (batchSize : Nat) (s : AllocState) : AllocState :=
  { freeBlocks := s.freeBlocks ++ (List.range batchSize).map (fun i => s.nextAddr + i),
    nextAddr := s.nextAddr + batchSize,
    sysAllocs := s.sysAllocs + batchSize,
    expands := s.expands + 1 }

/-- `MyAllocator::allocate` (src/main.cpp lines 35-48).  If `n > BlockSize`
the request goes straight to `::operator new` (one system allocation, the
pool untouched).  Otherwise, if `free_blocks` is empty it is expanded, and
then the last entry (`back()`) is removed (`pop_back()`) and returned.
`vector::back()` on an empty vector is undefined behaviour; the embedding
returns `none` there (reachable only when `batchSize = 0`). -/
def allocate (batchSize : Nat) (n : Nat) (s : AllocState) : Option (Nat × AllocState) :=
  if n > batchSize then
    some (s.nextAddr,
      { s with nextAddr := s.nextAddr + 1, sysAllocs := s.sysAllocs + 1 })
  else
    let s1 := if s.freeBlocks.isEmpty then expand batchSize s else s
    match s1.freeBlocks.getLast? with
    | none => none
    | some p => some (p, { s1 with freeBlocks := s1.freeBlocks.dropLast })

/-- `MyAllocator::deallocate` (src/main.cpp lines 51-59).  If `n > BlockSize`
the pointer is released via `::operator delete` (no pool change); otherwise
the pointer is pushed back onto `free_blocks`. -/
def deallocate (batchSize : Nat) (p : Nat) (n : Nat) (s : AllocState) : AllocState :=
  if n > batchSize then s
  else { s with freeBlocks := s.freeBlocks ++ [p] }

/-- `operator==` for two `MyAllocator` instances of the same `BlockSize`
(src/main.cpp lines 85-88): ignores both arguments and returns `true`. -/
def allocEqOp (_batchSize : Nat) (_a _b : AllocState) : Bool := true

/-- `operator!=` for two `MyAllocator` instances of the same `BlockSize`
(src/main.cpp lines 90-93): ignores both arguments and returns `false`. -/
def allocNeOp (_batchSize : Nat) (_a _b : AllocState) : Bool := false

/-- Iterate `k` pool allocations of one element each (`allocate(1)`),
threading the state; fails if any step does. -/
def allocIter (batchSize : Nat) : Nat → AllocState → Option AllocState
  | 0, s => some s
  | k + 1, s =>
    match allocate batchSize 1 s with
    | none => none
    | some (_, s') => allocIter batchSize k s'

/-- One `allocate(1)` immediately followed by `deallocate(p, 1)` on the block
`p` it returned. -/
def cycle (batchSize : Nat) (s : AllocState) : Option AllocState :=
  match allocate batchSize 1 s with
  | none => none
  | some (p, s') => some (deallocate batchSize p 1 s')

/-- `k` consecutive allocate/deallocate cycles on a single block. -/
def cycles (batchSize : Nat) : Nat → AllocState → Option AllocState
  | 0, s => some s
  | k + 1, s =>
    match cycle batchSize s with
    | none => none
    | some s' => cycles batchSize k s'

end MyAllocator

/-- Written element memory, as an association list from addresses to the `int`
stored there (most recent write first); placement-new (`construct`) is a
write, dereferencing a pointer is a lookup. -/
def heapWrite (h : List (Nat × Int)) (p : Nat) (v : Int) : List (Nat × Int) :=
  (p, v) :: h

/-- Read the element constructed at address `p` (`*ptr` in the source);
`none` means no element was ever constructed there. -/
def heapRead (h : List (Nat × Int)) (p : Nat) : Option Int :=
  (h.find? (fun e => e.1 == p)).map (fun e => e.2)

/-- The state of one `MyContainer<int, MyAllocator<int, BlockSize>>` instance:
the held allocator (`alloc_`), the recorded element addresses in insertion
order (`elements_`), the stored count (`size_`), and the memory contents of
the constructed elements (`heap`, modelling what placement-new wrote). -/
structure ContState where
  alloc_ : AllocState
  heap : List (Nat × Int)
  elements_ : List Nat
  size_ : Nat
deriving Repr, DecidableEq

/-- A freshly constructed container with a fresh allocator (src/main.cpp
line 104): no elements, count zero. -/
def initCont : ContState :=
  { alloc_ := initAlloc, heap := [], elements_ := [], size_ := 0 }

namespace MyContainer

/-- `MyContainer::push_back` (src/main.cpp lines 107-112): allocate one block
(`count = 1`), construct the value into it (a heap write), record the address,
increment the count. -/
def push_back (batchSize : Nat) (v : Int) (c : ContState) : Option ContState :=
  match MyAllocator.allocate batchSize 1 c.alloc_ with
  | none => none
  | some (p, a) =>
    some { alloc_ := a, heap := heapWrite c.heap p v,
           elements_ := c.elements_ ++ [p], size_ := c.size_ + 1 }

/-- `MyContainer::print` (src/main.cpp lines 115-120): dereference each
recorded pointer in insertion order. -/
def print (c : ContState) : List (Option Int) :=
  c.elements_.map (heapRead c.heap)

/-- `MyContainer::size` (src/main.cpp line 122): returns the stored count. -/
def size (c : ContState) : Nat := c.size_

/-- `MyContainer::empty` (src/main.cpp line 123): the stored count is zero. -/
def empty (c : ContState) : Bool := c.size_ == 0

/-- An observable teardown action of the destructor: destroying the element
at an address, or deallocating the block at an address with a given count. -/
inductive Event where
  | destroyEv : Nat → Event
  | deallocEv : Nat → Nat → Event
deriving Repr, DecidableEq

/-- The destructor's action trace (src/main.cpp lines 126-131): for each
recorded address in order, destroy the element there, then deallocate its
block with `count = 1`. -/
def dtorEvents (elems : List Nat) : List Event :=
  (elems.map (fun p => [Event.destroyEv p, Event.deallocEv p 1])).flatten

/-- The destructor's effect on the held allocator (src/main.cpp line 129):
each recorded address is passed to `deallocate(ptr, 1)`, in order. -/
def dtorAlloc (batchSize : Nat) (elems : List Nat) (a : AllocState) : AllocState :=
  elems.foldl (fun acc p => MyAllocator.deallocate batchSize p 1 acc) a

/-- Push a list of values in order (the demo's fill loops). -/
def pushList (batchSize : Nat) : List Int → ContState → Option ContState
  | [], c => some c
  | v :: vs, c =>
    match push_back batchSize v c with
    | none => none
    | some c' => pushList batchSize vs c'

/-- Container states reachable from a fresh container by successful
`push_back` calls. -/
inductive Reachable (batchSize : Nat) : ContState → Prop where
  | init : Reachable batchSize initCont
  | step {c : ContState} {v : Int} {c' : ContState} :
      Reachable batchSize c → push_back batchSize v c = some c' →
      Reachable batchSize c'

end MyContainer

/-- Structural recursion on a fuel argument used to define `factorial` below;
when the fuel is at least `n.toNat` this computes the recursion of
src/main.cpp lines 140-143 exactly (see `factorial_eq`). -/
def factorialFuel : Nat → Int → Int
  | 0, _ => 1
  | fuel + 1, n => if n ≤ 1 then 1 else n * factorialFuel fuel (n - 1)

/-- `factorial` (src/main.cpp lines 140-143): `if (n <= 1) return 1;
return n * factorial(n - 1);` on `int`, modelled on unbounded `Int` (the demo
only calls it on 0..9, far from `int` overflow).  The fuel `n.toNat` is a
termination device only; `factorial_eq` proves this function satisfies the
source's recursion verbatim. -/
def factorial (n : Int) : Int := factorialFuel n.toNat n

/-- The `map2` population step of `main` (src/main.cpp lines 154-160),
modelled at the allocator level: each of the 10 insertions into the
`std::map` with `MyAllocator<_, 10>` allocates exactly one tree node, a
single-node (`count = 1`) pool allocation, starting from a fresh allocator. -/
def mapFillAlloc : Option AllocState := MyAllocator.allocIter 10 10 initAlloc

/-- The lines printed for `map2` (src/main.cpp lines 168-171):
`"Key: " << key << ", Value: " << value` for keys 0..9 in ascending order,
where the stored value is `factorial(key)`. -/
def mapPrintLines : List String :=
  (List.range 10).map
    (fun k => "Key: " ++ toString k ++ ", Value: " ++ toString (factorial (k : Int)))

/-- Well-formedness of an allocator state: every pooled block is an address
the system allocator has already handed out, and no block is pooled twice. -/
def AllocInv (s : AllocState) : Prop :=
  (∀ q ∈ s.freeBlocks, q < s.nextAddr) ∧ s.freeBlocks.Nodup

/-- Well-formedness of a container state: the allocator is well-formed, every
recorded element address was handed out by the allocator, no address is
recorded twice, no recorded address sits in the free list, and the recorded
address sequence has exactly `size_` entries. -/
def ContInv (c : ContState) : Prop :=
  AllocInv c.alloc_ ∧
  (∀ p ∈ c.elements_, p < c.alloc_.nextAddr) ∧
  c.elements_.Nodup ∧
  (∀ p ∈ c.elements_, p ∉ c.alloc_.freeBlocks) ∧
  c.elements_.length = c.size_

namespace MyAllocator

/-- Bypass path: a request for more than `batchSize` elements goes straight to
the system allocator and touches neither the pool nor the expansion counter. -/
theorem allocate_bypass (batchSize n : Nat) (s : AllocState) (h : batchSize < n) :
    allocate batchSize n s =
      some (s.nextAddr,
        { s with nextAddr := s.nextAddr + 1, sysAllocs := s.sysAllocs + 1 }) := by
  simp [allocate, h]

/-- Pool path with a non-empty free list: no expansion happens and the last
entry of `freeBlocks` is removed and returned. -/
theorem allocate_pool_concat (batchSize n : Nat) (s : AllocState) (l : List Nat) (p : Nat)
    (hn : n ≤ batchSize) (hfb : s.freeBlocks = l ++ [p]) :
    allocate batchSize n s = some (p, { s with freeBlocks := l }) := by
  have hlt : ¬ n > batchSize := Nat.not_lt.mpr hn
  simp [allocate, hlt, hfb, List.getLast?_concat, List.dropLast_concat]

/-- Pool path with an empty free list (and a positive batch size): exactly one
expansion happens, appending `batchSize` fresh blocks, and the last of them is
immediately removed and returned. -/
theorem allocate_pool_empty (batchSize n : Nat) (s : AllocState)
    (hn : n ≤ batchSize) (hb : 0 < batchSize) (hfb : s.freeBlocks = []) :
    allocate batchSize n s =
      some (s.nextAddr + (batchSize - 1),
        { freeBlocks := (List.range (batchSize - 1)).map (fun i => s.nextAddr + i),
          nextAddr := s.nextAddr + batchSize,
          sysAllocs := s.sysAllocs + batchSize,
          expands := s.expands + 1 }) := by
  obtain ⟨m, rfl⟩ : ∃ m, batchSize = m + 1 := ⟨batchSize - 1, (Nat.succ_pred_eq_of_pos hb).symm⟩
  have hlt : ¬ n > m + 1 := Nat.not_lt.mpr hn
  have hrange : List.range (m + 1) = List.range m ++ [m] := by
    rw [List.range_succ]
  simp [allocate, hlt, hfb, expand, hrange, List.getLast?_concat, List.dropLast_concat]

/-- As long as the free list holds at least `k` blocks, `k` one-element pool
allocations all succeed without any expansion or system allocation, consuming
exactly `k` free blocks. -/
theorem allocIter_no_expand (batchSize : Nat) (hb : 0 < batchSize) :
    ∀ (k : Nat) (s : AllocState), k ≤ s.freeBlocks.length →
      ∃ s', allocIter batchSize k s = some s' ∧ s'.expands = s.expands ∧
        s'.sysAllocs = s.sysAllocs ∧
        s'.freeBlocks.length = s.freeBlocks.length - k := by
  intro k
  induction k with
  | zero => exact fun s _ => ⟨s, rfl, rfl, rfl, by simp⟩
  | succ k ih =>
    intro s hk
    rcases s.freeBlocks.eq_nil_or_concat' with hnil | ⟨l, p, hfb⟩
    · rw [hnil] at hk
      simp at hk
    · have hlen : s.freeBlocks.length = l.length + 1 := by rw [hfb]; simp
      have ha := allocate_pool_concat batchSize 1 s l p hb hfb
      have hkl : k ≤ l.length := by omega
      obtain ⟨s', hiter, hexp, hsys, hlen'⟩ := ih { s with freeBlocks := l } hkl
      refine ⟨s', ?_, hexp, hsys, ?_⟩
      · simp [allocIter, ha, hiter]
      · simp only at hlen'
        omega

/-- With a non-empty free list, an allocate/deallocate cycle on one block
returns the allocator to exactly its starting state. -/
theorem cycle_fixed (batchSize : Nat) (hb : 0 < batchSize) (s : AllocState)
    (hne : s.freeBlocks ≠ []) : cycle batchSize s = some s := by
  rcases s.freeBlocks.eq_nil_or_concat' with hnil | ⟨l, p, hfb⟩
  · exact absurd hnil hne
  · have ha := allocate_pool_concat batchSize 1 s l p hb hfb
    have hd : deallocate batchSize p 1 { s with freeBlocks := l } = s := by
      simp only [deallocate, if_neg (Nat.not_lt.mpr hb)]
      rw [← hfb]
    simp [cycle, ha, hd]

/-- Iterating cycles from a state with a non-empty free list never changes the
state. -/
theorem cycles_fixed (batchSize : Nat) (hb : 0 < batchSize) (s : AllocState)
    (hne : s.freeBlocks ≠ []) : ∀ k, cycles batchSize k s = some s := by
  intro k
  induction k with
  | zero => rfl
  | succ k ih => simp [cycles, cycle_fixed batchSize hb s hne, ih]

/-- Popping the last free block and pushing it straight back (one in-pool
deallocate of the just-allocated block) restores the free list. -/
theorem allocate_shape (batchSize n : Nat) (s : AllocState) (p : Nat) (s' : AllocState)
    (hinv : AllocInv s) (h : allocate batchSize n s = some (p, s')) :
    AllocInv s' ∧ s.nextAddr ≤ s'.nextAddr ∧ p < s'.nextAddr ∧ p ∉ s'.freeBlocks ∧
    (p ∈ s.freeBlocks ∨ s.nextAddr ≤ p) ∧
    (∀ q, q ∈ s'.freeBlocks → q ∈ s.freeBlocks ∨ s.nextAddr ≤ q) := by
  obtain ⟨hlt, hnd⟩ := hinv
  by_cases hn : batchSize < n
  · rw [allocate_bypass batchSize n s hn] at h
    simp only [Option.some.injEq, Prod.mk.injEq] at h
    obtain ⟨rfl, rfl⟩ := h
    refine ⟨⟨fun q hq => Nat.lt_succ_of_lt (hlt q hq), hnd⟩,
      Nat.le_succ _, Nat.lt_succ_self _, ?_, Or.inr (Nat.le_refl _),
      fun q hq => Or.inl hq⟩
    intro hmem
    exact Nat.lt_irrefl _ (hlt _ hmem)
  · have hn' : n ≤ batchSize := Nat.not_lt.mp hn
    rcases s.freeBlocks.eq_nil_or_concat' with hfb | ⟨l, q, hfb⟩
    · rcases Nat.eq_zero_or_pos batchSize with hb0 | hb
      · subst hb0
        simp [allocate, hfb, expand, Nat.le_zero.mp hn'] at h
      · rw [allocate_pool_empty batchSize n s hn' hb hfb] at h
        simp only [Option.some.injEq, Prod.mk.injEq] at h
        obtain ⟨rfl, rfl⟩ := h
        refine ⟨⟨?_, ?_⟩, Nat.le_add_right _ _,
          (by omega : s.nextAddr + (batchSize - 1) < s.nextAddr + batchSize),
          ?_, Or.inr (Nat.le_add_right _ _), ?_⟩
        · intro r hr
          simp only [List.mem_map, List.mem_range] at hr
          obtain ⟨i, hi, rfl⟩ := hr
          show s.nextAddr + i < s.nextAddr + batchSize
          omega
        · have hinj : Function.Injective (fun i => s.nextAddr + i) :=
            fun a b hab => by simpa using hab
          exact List.Nodup.map hinj (List.nodup_range _)
        · intro hmem
          simp only [List.mem_map, List.mem_range] at hmem
          obtain ⟨i, hi, hieq⟩ := hmem
          omega
        · intro r hr
          simp only [List.mem_map, List.mem_range] at hr
          obtain ⟨i, hi, rfl⟩ := hr
          exact Or.inr (Nat.le_add_right _ _)
    · rw [allocate_pool_concat batchSize n s l q hn' hfb] at h
      simp only [Option.some.injEq, Prod.mk.injEq] at h
      obtain ⟨rfl, rfl⟩ := h
      have hnd' := hfb ▸ hnd
      obtain ⟨hndl, _, hdisj⟩ := List.nodup_append.mp hnd'
      have hqmem : q ∈ s.freeBlocks := by
        rw [hfb]
        exact List.mem_append_right l (List.mem_singleton.mpr rfl)
      refine ⟨⟨?_, hndl⟩, Nat.le_refl _, hlt q hqmem, ?_, Or.inl hqmem, ?_⟩
      · intro r hr
        exact hlt r (by rw [hfb]; exact List.mem_append_left _ hr)
      · intro hmem
        exact hdisj hmem (List.mem_singleton.mpr rfl)
      · intro r hr
        exact Or.inl (by rw [hfb]; exact List.mem_append_left _ hr)

end MyAllocator

/-- `factorialFuel` ignores its fuel entirely on the `n ≤ 1` base case. -/
theorem factorialFuel_of_le (k : Nat) (n : Int) (h : n ≤ 1) : factorialFuel k n = 1 := by
  cases k <;> simp [factorialFuel, h]

/-- `factorial` satisfies, verbatim, the recursion of src/main.cpp lines
140-143: `if (n <= 1) return 1; return n * factorial(n - 1);`. -/
theorem factorial_eq (n : Int) :
    factorial n = if n ≤ 1 then 1 else n * factorial (n - 1) := by
  by_cases h : n ≤ 1
  · simp [factorial, factorialFuel_of_le _ _ h, h]
  · obtain ⟨m, hm⟩ : ∃ m, n.toNat = m + 1 := ⟨n.toNat - 1, by omega⟩
    have hm' : (n - 1).toNat = m := by omega
    unfold factorial
    rw [hm, hm']
    simp [factorialFuel, h]

/-- The empty container satisfies the container well-formedness invariant. -/
theorem contInv_init : ContInv initCont :=
  ⟨⟨fun q hq => absurd hq (List.not_mem_nil q), List.nodup_nil⟩,
   fun p hp => absurd hp (List.not_mem_nil p), List.nodup_nil,
   fun p hp => absurd hp (List.not_mem_nil p), rfl⟩

/-- `push_back` preserves the container well-formedness invariant. -/
theorem push_back_inv (batchSize : Nat) (v : Int) (c c' : ContState)
    (hinv : ContInv c) (h : MyContainer.push_back batchSize v c = some c') :
    ContInv c' := by
  obtain ⟨hai, helt, hnd, hdisj, hlen⟩ := hinv
  unfold MyContainer.push_back at h
  rcases ha : MyAllocator.allocate batchSize 1 c.alloc_ with _ | ⟨p, a⟩
  · rw [ha] at h
    simp at h
  · rw [ha] at h
    simp only [Option.some.injEq] at h
    subst h
    obtain ⟨hai', hle, hplt, hpnf, hpsrc, hfb⟩ :=
      MyAllocator.allocate_shape batchSize 1 c.alloc_ p a hai ha
    have hpne : p ∉ c.elements_ := by
      intro hpe
      rcases hpsrc with hf | hge
      · exact hdisj p hpe hf
      · exact Nat.lt_irrefl _ (Nat.lt_of_lt_of_le (helt p hpe) hge)
    refine ⟨hai', ?_, ?_, ?_, ?_⟩
    · intro r hr
      rcases List.mem_append.mp hr with hro | hrp
      · exact Nat.lt_of_lt_of_le (helt r hro) hle
      · rw [List.mem_singleton.mp hrp]
        exact hplt
    · exact List.nodup_append.mpr
        ⟨hnd, List.nodup_singleton p,
         fun r hr hrp => hpne ((List.mem_singleton.mp hrp) ▸ hr)⟩
    · intro r hr hrf
      rcases List.mem_append.mp hr with hro | hrp
      · rcases hfb r hrf with hf | hge
        · exact hdisj r hro hf
        · exact Nat.lt_irrefl _ (Nat.lt_of_lt_of_le (helt r hro) hge)
      · exact hpnf ((List.mem_singleton.mp hrp) ▸ hrf)
    · simp only [List.length_append, List.length_singleton]
      omega

/-- Every reachable container state satisfies the well-formedness invariant
(in particular its recorded addresses are pairwise distinct). -/
theorem reachable_inv (batchSize : Nat) (c : ContState)
    (h : MyContainer.Reachable batchSize c) : ContInv c := by
  induction h with
  | init => exact contInv_init
  | step hr hpb ih => exact push_back_inv _ _ _ _ ih hpb

/-- The destructor trace contains one destroy event per occurrence of an
address in the recorded sequence. -/
theorem dtorEvents_count_destroy (elems : List Nat) (p : Nat) :
    (MyContainer.dtorEvents elems).count (MyContainer.Event.destroyEv p)
      = elems.count p := by
  induction elems with
  | nil => rfl
  | cons q rest ih =>
    have hstep : MyContainer.dtorEvents (q :: rest)
        = MyContainer.Event.destroyEv q :: MyContainer.Event.deallocEv q 1 ::
          MyContainer.dtorEvents rest := by
      simp [MyContainer.dtorEvents]
    rw [hstep]
    by_cases hq : q = p
    · subst hq
      simp [List.count_cons, ih]
    · simp [List.count_cons, ih, hq]

/-- The destructor trace contains one count-1 deallocate event per occurrence
of an address in the recorded sequence. -/
theorem dtorEvents_count_dealloc (elems : List Nat) (p : Nat) :
    (MyContainer.dtorEvents elems).count (MyContainer.Event.deallocEv p 1)
      = elems.count p := by
  induction elems with
  | nil => rfl
  | cons q rest ih =>
    have hstep : MyContainer.dtorEvents (q :: rest)
        = MyContainer.Event.destroyEv q :: MyContainer.Event.deallocEv q 1 ::
          MyContainer.dtorEvents rest := by
      simp [MyContainer.dtorEvents]
    rw [hstep]
    by_cases hq : q = p
    · subst hq
      simp [List.count_cons, ih]
    · simp [List.count_cons, ih, hq]

/-- Running the destructor's deallocation loop pushes every recorded address
into the pool, in order, and performs no system allocation. -/
theorem dtorAlloc_spec (batchSize : Nat) (hb : 0 < batchSize) :
    ∀ (elems : List Nat) (a : AllocState),
      (MyContainer.dtorAlloc batchSize elems a).freeBlocks = a.freeBlocks ++ elems ∧
      (MyContainer.dtorAlloc batchSize elems a).sysAllocs = a.sysAllocs := by
  intro elems
  induction elems with
  | nil =>
    intro a
    exact ⟨by simp [MyContainer.dtorAlloc], rfl⟩
  | cons p rest ih =>
    intro a
    have hd : MyAllocator.deallocate batchSize p 1 a
        = { a with freeBlocks := a.freeBlocks ++ [p] } := by
      simp [MyAllocator.deallocate, Nat.not_lt.mpr hb]
    have hstep : MyContainer.dtorAlloc batchSize (p :: rest) a
        = MyContainer.dtorAlloc batchSize rest (MyAllocator.deallocate batchSize p 1 a) := rfl
    obtain ⟨ih1, ih2⟩ := ih { a with freeBlocks := a.freeBlocks ++ [p] }
    constructor
    · rw [hstep, hd, ih1]
      simp
    · rw [hstep, hd, ih2]

/-- From an empty free list, one allocate/deallocate cycle performs exactly
`batchSize` system allocations and leaves a non-empty free list. -/
theorem cycle_from_empty (batchSize : Nat) (hb : 0 < batchSize) (s : AllocState)
    (hfb : s.freeBlocks = []) :
    ∃ σ, MyAllocator.cycle batchSize s = some σ ∧ σ.freeBlocks ≠ [] ∧
      σ.sysAllocs = s.sysAllocs + batchSize := by
  have ha := MyAllocator.allocate_pool_empty batchSize 1 s hb hb hfb
  have hd : MyAllocator.deallocate batchSize (s.nextAddr + (batchSize - 1)) 1
      { freeBlocks := (List.range (batchSize - 1)).map (fun i => s.nextAddr + i),
        nextAddr := s.nextAddr + batchSize,
        sysAllocs := s.sysAllocs + batchSize,
        expands := s.expands + 1 }
      = { freeBlocks := ((List.range (batchSize - 1)).map (fun i => s.nextAddr + i))
            ++ [s.nextAddr + (batchSize - 1)],
          nextAddr := s.nextAddr + batchSize,
          sysAllocs := s.sysAllocs + batchSize,
          expands := s.expands + 1 } := by
    simp [MyAllocator.deallocate, Nat.not_lt.mpr hb]
  exact ⟨{ freeBlocks := (List.range (batchSize - 1)).map (fun i => s.nextAddr + i) ++ [s.nextAddr + (batchSize - 1)], nextAddr := s.nextAddr + batchSize, sysAllocs := s.sysAllocs + batchSize, expands := s.expands + 1 }, by simp only [MyAllocator.cycle, ha, hd], by simp, rfl⟩

/-- C1: a pool allocation (`count ≤ batchSize`) that finds `freeBlocks` empty
triggers exactly one expansion, which appends exactly `batchSize`
single-element blocks (`batchSize` system allocations; `batchSize - 1` blocks
remain once the returned one is popped); the next `batchSize - 1` pool
allocations trigger no expansion and no system allocation; and `expand` is
never invoked while `freeBlocks` is non-empty (a pool allocation on a
non-empty free list leaves both counters unchanged). -/
theorem batch_growth (batchSize n m : Nat) (s t : AllocState)
    (hb : 0 < batchSize) (hn : n ≤ batchSize) (hfb : s.freeBlocks = [])
    (hm : m ≤ batchSize) (ht : t.freeBlocks ≠ []) :
    (∃ p s1, MyAllocator.allocate batchSize n s = some (p, s1) ∧
      s1.expands = s.expands + 1 ∧
      s1.sysAllocs = s.sysAllocs + batchSize ∧
      s1.freeBlocks.length = batchSize - 1 ∧
      ∃ s2, MyAllocator.allocIter batchSize (batchSize - 1) s1 = some s2 ∧
        s2.expands = s1.expands ∧ s2.sysAllocs = s1.sysAllocs) ∧
    (MyAllocator.expand batchSize s).freeBlocks.length
      = s.freeBlocks.length + batchSize ∧
    (∃ q t', MyAllocator.allocate batchSize m t = some (q, t') ∧
      t'.expands = t.expands ∧ t'.sysAllocs = t.sysAllocs) := by
  refine ⟨?_, by simp [MyAllocator.expand], ?_⟩
  · obtain ⟨s2, hiter, hexp2, hsys2, _⟩ :=
      MyAllocator.allocIter_no_expand batchSize hb (batchSize - 1)
        { freeBlocks := (List.range (batchSize - 1)).map (fun i => s.nextAddr + i),
          nextAddr := s.nextAddr + batchSize,
          sysAllocs := s.sysAllocs + batchSize,
          expands := s.expands + 1 } (by simp)
    exact ⟨s.nextAddr + (batchSize - 1), _,
      MyAllocator.allocate_pool_empty batchSize n s hn hb hfb,
      rfl, rfl, by simp, s2, hiter, hexp2, hsys2⟩
  · obtain ⟨l, q, hq⟩ := (List.eq_nil_or_concat' t.freeBlocks).resolve_left ht
    exact ⟨q, _, MyAllocator.allocate_pool_concat batchSize m t l q hm hq, rfl, rfl⟩

/-- Witness for `batch_growth` at `batchSize = 2`, the fresh allocator, and a
non-empty allocator holding block 3. -/
theorem batch_growth_witness :
    (∃ p s1, MyAllocator.allocate 2 1 initAlloc = some (p, s1) ∧
      s1.expands = initAlloc.expands + 1 ∧
      s1.sysAllocs = initAlloc.sysAllocs + 2 ∧
      s1.freeBlocks.length = 2 - 1 ∧
      ∃ s2, MyAllocator.allocIter 2 (2 - 1) s1 = some s2 ∧
        s2.expands = s1.expands ∧ s2.sysAllocs = s1.sysAllocs) ∧
    (MyAllocator.expand 2 initAlloc).freeBlocks.length
      = initAlloc.freeBlocks.length + 2 ∧
    (∃ q t', MyAllocator.allocate 2 2
        { freeBlocks := [3], nextAddr := 4, sysAllocs := 4, expands := 2 }
        = some (q, t') ∧
      t'.expands = 2 ∧ t'.sysAllocs = 4) :=
  batch_growth 2 1 2 initAlloc
    { freeBlocks := [3], nextAddr := 4, sysAllocs := 4, expands := 2 }
    (by decide) (by decide) rfl (by decide) (by decide)

/-- C2: the pool path is LIFO — with `freeBlocks = l ++ [q]`, a pool
allocation removes and returns the last entry `q`; and for every allocator
state `s`, `deallocate(p, 1)` immediately followed by `allocate(1)` returns
exactly `p` and restores the state `s`. -/
theorem lifo_reuse (batchSize n : Nat) (s sc : AllocState) (l : List Nat) (q p : Nat)
    (hb : 0 < batchSize) (hn : n ≤ batchSize) (hfb : sc.freeBlocks = l ++ [q]) :
    MyAllocator.allocate batchSize n sc = some (q, { sc with freeBlocks := l }) ∧
    MyAllocator.allocate batchSize 1 (MyAllocator.deallocate batchSize p 1 s)
      = some (p, s) := by
  refine ⟨MyAllocator.allocate_pool_concat batchSize n sc l q hn hfb, ?_⟩
  have hd : MyAllocator.deallocate batchSize p 1 s
      = { s with freeBlocks := s.freeBlocks ++ [p] } := by
    simp [MyAllocator.deallocate, Nat.not_lt.mpr hb]
  rw [hd]
  exact MyAllocator.allocate_pool_concat batchSize 1
    { s with freeBlocks := s.freeBlocks ++ [p] } s.freeBlocks p hb rfl

/-- Witness for `lifo_reuse` at `batchSize = 1`. -/
theorem lifo_reuse_witness :
    MyAllocator.allocate 1 1 { freeBlocks := [5], nextAddr := 6, sysAllocs := 1, expands := 1 }
      = some (5, { freeBlocks := [], nextAddr := 6, sysAllocs := 1, expands := 1 }) ∧
    MyAllocator.allocate 1 1 (MyAllocator.deallocate 1 7 1 initAlloc)
      = some (7, initAlloc) :=
  lifo_reuse 1 1 initAlloc
    { freeBlocks := [5], nextAddr := 6, sysAllocs := 1, expands := 1 }
    [] 5 7 (by decide) (by decide) rfl

/-- C3: bypass isolation — an `allocate` with `count > batchSize` leaves
`freeBlocks` unchanged, and a `deallocate` with the same `count > batchSize`
also leaves `freeBlocks` unchanged (it never pushes into the pool). -/
theorem bypass_isolation (batchSize n : Nat) (s : AllocState) (p : Nat)
    (h : batchSize < n) :
    (∃ q s', MyAllocator.allocate batchSize n s = some (q, s') ∧
      s'.freeBlocks = s.freeBlocks) ∧
    (MyAllocator.deallocate batchSize p n s).freeBlocks = s.freeBlocks := by
  refine ⟨⟨s.nextAddr, _, MyAllocator.allocate_bypass batchSize n s h, rfl⟩, ?_⟩
  simp [MyAllocator.deallocate, h]

/-- Witness for `bypass_isolation` at `batchSize = 10`, `count = 11`. -/
theorem bypass_isolation_witness :
    (∃ q s', MyAllocator.allocate 10 11 initAlloc = some (q, s') ∧
      s'.freeBlocks = initAlloc.freeBlocks) ∧
    (MyAllocator.deallocate 10 3 11 initAlloc).freeBlocks = initAlloc.freeBlocks :=
  bypass_isolation 10 11 initAlloc 3 (by decide)

/-- C4: pool reuse — starting from a fresh allocator, `k` consecutive
cycles of `allocate(1)` followed by `deallocate(p, 1)` on the returned block
cause at most `batchSize` system allocations in total, for every `k`. -/
theorem pool_reuse_bound (batchSize k : Nat) (hb : 0 < batchSize) :
    ∃ s', MyAllocator.cycles batchSize k initAlloc = some s' ∧
      s'.sysAllocs ≤ batchSize := by
  cases k with
  | zero => exact ⟨initAlloc, rfl, Nat.zero_le _⟩
  | succ k =>
    obtain ⟨σ, hcyc, hne, hsys⟩ := cycle_from_empty batchSize hb initAlloc rfl
    refine ⟨σ, ?_, ?_⟩
    · simp only [MyAllocator.cycles, hcyc]
      exact MyAllocator.cycles_fixed batchSize hb σ hne k
    · rw [hsys]
      have h0 : initAlloc.sysAllocs = 0 := rfl
      omega

/-- Witness for `pool_reuse_bound` at `batchSize = 2`, `k = 3`. -/
theorem pool_reuse_bound_witness :
    ∃ s', MyAllocator.cycles 2 3 initAlloc = some s' ∧ s'.sysAllocs ≤ 2 :=
  pool_reuse_bound 2 3 (by decide)

/-- C5: container bookkeeping — in every reachable container state the
recorded address sequence has exactly `size_` entries, `size()` returns that
count, and `empty()` is `true` iff the count is zero (both observers are pure
functions of the state, so they leave it unchanged). -/
theorem container_bookkeeping (batchSize : Nat) (c : ContState)
    (h : MyContainer.Reachable batchSize c) :
    c.elements_.length = c.size_ ∧ MyContainer.size c = c.size_ ∧
    (MyContainer.empty c = true ↔ MyContainer.size c = 0) := by
  obtain ⟨_, _, _, _, hlen⟩ := reachable_inv batchSize c h
  exact ⟨hlen, rfl, by simp [MyContainer.empty, MyContainer.size]⟩

/-- Witness for `container_bookkeeping` at the container reached by one
`push_back(5)` with `batchSize = 10`. -/
theorem container_bookkeeping_witness :
    ({ alloc_ := { freeBlocks := [0, 1, 2, 3, 4, 5, 6, 7, 8],
                   nextAddr := 10, sysAllocs := 10, expands := 1 },
       heap := [(9, 5)], elements_ := [9], size_ := 1 } : ContState).elements_.length
      = ({ alloc_ := { freeBlocks := [0, 1, 2, 3, 4, 5, 6, 7, 8],
                       nextAddr := 10, sysAllocs := 10, expands := 1 },
           heap := [(9, 5)], elements_ := [9], size_ := 1 } : ContState).size_ ∧
    MyContainer.size
        { alloc_ := { freeBlocks := [0, 1, 2, 3, 4, 5, 6, 7, 8],
                      nextAddr := 10, sysAllocs := 10, expands := 1 },
          heap := [(9, 5)], elements_ := [9], size_ := 1 } = 1 ∧
    (MyContainer.empty
        { alloc_ := { freeBlocks := [0, 1, 2, 3, 4, 5, 6, 7, 8],
                      nextAddr := 10, sysAllocs := 10, expands := 1 },
          heap := [(9, 5)], elements_ := [9], size_ := 1 } = true ↔
      MyContainer.size
        { alloc_ := { freeBlocks := [0, 1, 2, 3, 4, 5, 6, 7, 8],
                      nextAddr := 10, sysAllocs := 10, expands := 1 },
          heap := [(9, 5)], elements_ := [9], size_ := 1 } = 0) :=
  container_bookkeeping 10 _
    (@MyContainer.Reachable.step 10 initCont 5 _ MyContainer.Reachable.init (by decide))

/-- C6: container teardown — for every reachable container, the destructor
trace destroys and then count-1-deallocates the element at each recorded
address exactly once (and touches no other address), every deallocation goes
through the held allocator whose pool receives all recorded addresses, and
the recorded addresses number exactly `size_`. -/
theorem container_teardown (batchSize : Nat) (c : ContState)
    (hb : 0 < batchSize) (h : MyContainer.Reachable batchSize c) :
    (∀ p ∈ c.elements_,
      (MyContainer.dtorEvents c.elements_).count (MyContainer.Event.destroyEv p) = 1 ∧
      (MyContainer.dtorEvents c.elements_).count (MyContainer.Event.deallocEv p 1) = 1) ∧
    (∀ p, p ∉ c.elements_ →
      (MyContainer.dtorEvents c.elements_).count (MyContainer.Event.destroyEv p) = 0 ∧
      (MyContainer.dtorEvents c.elements_).count (MyContainer.Event.deallocEv p 1) = 0) ∧
    (MyContainer.dtorAlloc batchSize c.elements_ c.alloc_).freeBlocks
      = c.alloc_.freeBlocks ++ c.elements_ ∧
    c.elements_.length = c.size_ := by
  obtain ⟨_, _, hnd, _, hlen⟩ := reachable_inv batchSize c h
  obtain ⟨hfb, _⟩ := dtorAlloc_spec batchSize hb c.elements_ c.alloc_
  refine ⟨?_, ?_, hfb, hlen⟩
  · intro p hp
    rw [dtorEvents_count_destroy, dtorEvents_count_dealloc]
    exact ⟨List.count_eq_one_of_mem hnd hp, List.count_eq_one_of_mem hnd hp⟩
  · intro p hp
    rw [dtorEvents_count_destroy, dtorEvents_count_dealloc]
    exact ⟨List.count_eq_zero_of_not_mem hp, List.count_eq_zero_of_not_mem hp⟩

/-- Witness for `container_teardown` at the container reached by one
`push_back(5)` with `batchSize = 10` (its single element lives at address 9). -/
theorem container_teardown_witness :
    (MyContainer.dtorEvents [9]).count (MyContainer.Event.destroyEv 9) = 1 ∧
    (MyContainer.dtorEvents [9]).count (MyContainer.Event.deallocEv 9 1) = 1 ∧
    (MyContainer.dtorEvents [9]).count (MyContainer.Event.destroyEv 4) = 0 ∧
    (MyContainer.dtorAlloc 10 [9]
        { freeBlocks := [0, 1, 2, 3, 4, 5, 6, 7, 8],
          nextAddr := 10, sysAllocs := 10, expands := 1 }).freeBlocks
      = [0, 1, 2, 3, 4, 5, 6, 7, 8] ++ [9] := by
  have h := container_teardown 10
    { alloc_ := { freeBlocks := [0, 1, 2, 3, 4, 5, 6, 7, 8],
                  nextAddr := 10, sysAllocs := 10, expands := 1 },
      heap := [(9, 5)], elements_ := [9], size_ := 1 }
    (by decide)
    (@MyContainer.Reachable.step 10 initCont 5 _ MyContainer.Reachable.init (by decide))
  exact ⟨(h.1 9 (by decide)).1, (h.1 9 (by decide)).2,
    (h.2.1 4 (by decide)).1, h.2.2.1⟩

/-- C7: append scenario — appending the integers 0..9 in order to a fresh
container (batch size 10, as in `main`'s `container2`) yields `size() = 10`
and enumeration returns exactly the values 0,1,...,9 in insertion order. -/
theorem append_scenario :
    (MyContainer.pushList 10 ((List.range 10).map (fun i => (i : Int))) initCont).map
        (fun c => (MyContainer.size c, MyContainer.print c))
      = some (10, [some 0, some 1, some 2, some 3, some 4,
                   some 5, some 6, some 7, some 8, some 9]) := by
  rfl

/-- C8: factorial/map scenario — `factorial(k)` equals `k!` for every key
0..9, populating `map2` (ten single-node insertions through the pool-backed
allocator with `batchSize = 10`, starting fresh) triggers exactly one
expansion, and the printed lines run from "Key: 0, Value: 1" to
"Key: 9, Value: 362880" in ascending key order. -/
theorem factorial_map_scenario :
    ((List.range 10).map (fun k => factorial (k : Int))
      = [1, 1, 2, 6, 24, 120, 720, 5040, 40320, 362880]) ∧
    ((List.range 10).map (fun k => factorial (k : Int))
      = (List.range 10).map (fun k => (Nat.factorial k : Int))) ∧
    mapFillAlloc = some { freeBlocks := [], nextAddr := 10, sysAllocs := 10, expands := 1 } ∧
    mapPrintLines
      = ["Key: 0, Value: 1", "Key: 1, Value: 1", "Key: 2, Value: 2",
         "Key: 3, Value: 6", "Key: 4, Value: 24", "Key: 5, Value: 120",
         "Key: 6, Value: 720", "Key: 7, Value: 5040", "Key: 8, Value: 40320",
         "Key: 9, Value: 362880"] :=
  ⟨by decide, by decide, by decide, by rfl⟩

/-- C9: allocator compatibility is unconditional — for every batch size and
every pair of allocator states, `operator==` returns `true` and `operator!=`
returns `false`, independent of the pools' contents. -/
theorem alloc_compare_unconditional (batchSize : Nat) (a b : AllocState) :
    MyAllocator.allocEqOp batchSize a b = true ∧
    MyAllocator.allocNeOp batchSize a b = false :=
  ⟨rfl, rfl⟩

/-- C10: every request with `count ≤ batchSize` (including 0 and every count
up to `batchSize`) takes the pool path: the result is identical for all such
counts, and exactly one single-element block is removed from the free list
(out of the `batchSize` blocks present right after an expansion when the list
was empty). -/
theorem pool_path_uniform (batchSize n m : Nat) (s : AllocState)
    (hb : 0 < batchSize) (hn : n ≤ batchSize) (hm : m ≤ batchSize) :
    MyAllocator.allocate batchSize n s = MyAllocator.allocate batchSize m s ∧
    ∃ p s', MyAllocator.allocate batchSize n s = some (p, s') ∧
      s'.freeBlocks.length + 1
        = (if s.freeBlocks = [] then batchSize else s.freeBlocks.length) := by
  rcases s.freeBlocks.eq_nil_or_concat' with hfb | ⟨l, q, hfb⟩
  · rw [MyAllocator.allocate_pool_empty batchSize n s hn hb hfb,
        MyAllocator.allocate_pool_empty batchSize m s hm hb hfb]
    refine ⟨rfl, _, _, rfl, ?_⟩
    simp [hfb]
    omega
  · have hne : s.freeBlocks ≠ [] := by rw [hfb]; simp
    rw [MyAllocator.allocate_pool_concat batchSize n s l q hn hfb,
        MyAllocator.allocate_pool_concat batchSize m s l q hm hfb]
    refine ⟨rfl, _, _, rfl, ?_⟩
    simp [hfb, hne]

/-- Witness for `pool_path_uniform` at `batchSize = 10` with counts 0 and 10. -/
theorem pool_path_uniform_witness :
    MyAllocator.allocate 10 0 initAlloc = MyAllocator.allocate 10 10 initAlloc ∧
    ∃ p s', MyAllocator.allocate 10 0 initAlloc = some (p, s') ∧
      s'.freeBlocks.length + 1
        = (if initAlloc.freeBlocks = [] then 10 else initAlloc.freeBlocks.length) :=
  pool_path_uniform 10 0 10 initAlloc (by decide) (by decide) (by decide)

end Lab4
